import Mathlib

set_option autoImplicit false

/-!
Verification development for the multi-vector retrieval pattern of
`docs/docs/how_to/multi_vector.ipynb`: a vector index over secondary
representations (chunks, summaries, hypothetical questions) paired with a
key-value store of primary documents, linked by an association key kept in
each secondary document's metadata under the configurable field `id_key`.

The notebook's own code (the three insertion flows and the concrete wiring
with `id_key = "doc_id"`) is embedded directly from the source cells.  The
`MultiVectorRetriever` retrieval algorithm itself is not part of this
source snapshot (the notebook only calls it), so it is modelled from the
specification's description of `retrieve(query, k, search_mode)`,
steps 1-5.
-/

namespace MultiVector

/-- A document as in the notebook: `Document(page_content=..., metadata={...})`.
Metadata is a string-keyed mapping; only string values occur in the notebook
(the generated identifiers), so values are strings here. -/
structure Doc where
  pageContent : String
  metadata : List (String × String)
deriving DecidableEq, Repr

/-- Read a metadata field, first binding wins: Python's `d.metadata[id_key]`
(returning `none` when the field is absent, i.e. `id_key not in d.metadata`). -/
def getMeta (field : String) : List (String × String) → Option String
  | [] => none
  | (f, v) :: m => if f = field then some v else getMeta field m

/-- Write a metadata field, overwriting an existing binding: the Python dict
assignment `_doc.metadata[id_key] = _id`. -/
def setMeta (field v : String) : List (String × String) → List (String × String)
  | [] => [(field, v)]
  | (f, w) :: m => if f = field then (f, v) :: m else (f, w) :: setMeta field v m

/-- Modelled from the spec: a single-key lookup against the key-value store of
primary documents (the Key-Value Store contract
`get_many([key]) -> [value | missing]`; the `InMemoryByteStore` implementation
is not part of this source snapshot).  The store is an association list from
generated identifiers to primary documents. -/
def mget : List (String × Doc) → String → Option Doc
  | [], _ => none
  | (k, d) :: st, q => if k = q then some d else mget st q

/-- Modelled from the spec: Step 2 of `retrieve()` — "extract the association
key from each match's metadata; on a match lacking the key field, skip it (do
not fail the whole request)". -/
def extractKeys (idKey : String) (ms : List Doc) : List String :=
  ms.filterMap (fun d => getMeta idKey d.metadata)

/-- Modelled from the spec: Step 3 of `retrieve()` — "deduplicate association
keys while preserving first-seen order". -/
def dedupKeys : List String → List String
  | [] => []
  | k :: ks => k :: (dedupKeys ks).filter (fun j => decide (j ≠ k))

/-- The deduplicated association keys that survive Step 5's store-miss filter:
the keys whose primary documents the retrieval actually returns, in order. -/
def retrievedKeys (idKey : String) (store : List (String × Doc))
    (ms : List Doc) : List String :=
  (dedupKeys (extractKeys idKey ms)).filter (fun k => (mget store k).isSome)

/-- Modelled from the spec: Steps 2-5 of `retrieve(query, k, search_mode)`
applied to the ordered matches produced by Step 1's vector search — extract
association keys, deduplicate preserving first-seen order, batch-fetch primary
documents by key, and silently drop store misses.  (The
`MultiVectorRetriever._get_relevant_documents` implementation is not part of
this source snapshot.) -/
def retrieveFromMatches (idKey : String) (store : List (String × Doc))
    (ms : List Doc) : List Doc :=
  (dedupKeys (extractKeys idKey ms)).filterMap (mget store)

/-- The two search modes of the retriever: plain similarity and
diversity-aware MMR (`SearchType.similarity` / `SearchType.mmr` in the
notebook). -/
inductive SearchType where
  | similarity
  | mmr
deriving DecidableEq, Repr

/-- The retriever's backing state: the vector index contents (inserted
secondary documents) and the key-value store of primary documents.  Per the
spec there is no further mutable state beyond configuration. -/
structure RetrieverState where
  vectorstore : List Doc
  docstore : List (String × Doc)
deriving DecidableEq, Repr

/-- Modelled from the spec: the full `retrieve(query, k, search_mode)`
operation.  Step 1 delegates to the vector index's search capability
(similarity or diversity-aware), abstracted here as the function `search`
ranking the index contents; steps 2-5 are `retrieveFromMatches`.  State is
threaded explicitly so that the operation's effect on the two stores can be
stated. -/
def retrieve (idKey : String)
    (search : SearchType → String → Nat → List Doc → List Doc)
    (mode : SearchType) (query : String) (k : Nat)
    (s : RetrieverState) : List Doc × RetrieverState :=
  (retrieveFromMatches idKey s.docstore (search mode query k s.vectorstore), s)

/-- Index of the first occurrence of a key in a list of keys (0 when absent at
the very front, growing towards the tail); used to state rank/order
properties. -/
def firstIdx (k : String) : List String → Nat
  | [] => 0
  | a :: l => if a = k then 0 else firstIdx k l + 1

/-! ### The notebook's insertion flows (embedded from the source cells) -/

/-- From the smaller-chunks cell: tagging one sub-document with its parent's
identifier, `_doc.metadata[id_key] = _id`. -/
def tagDoc (idKey id : String) (d : Doc) : Doc :=
  { d with metadata := setMeta idKey id d.metadata }

/-- From the smaller-chunks cell: split each parent document with the child
splitter, tag every resulting sub-document with the parent's identifier
`doc_ids[i]`, and collect them in order.  The Python loop pairs `docs[i]` with
`doc_ids[i]`; since `doc_ids` is built with one fresh identifier per document,
the pairing is a zip. -/
def buildSubDocs (idKey : String) (split : Doc → List Doc)
    (docs : List Doc) (docIds : List String) : List Doc :=
  (docs.zip docIds).flatMap (fun p => (split p.1).map (tagDoc idKey p.2))

/-- From the summaries cell:
`Document(page_content=s, metadata={id_key: doc_ids[i]})` for each summary. -/
def buildSummaryDocs (idKey : String) (summaries : List String)
    (docIds : List String) : List Doc :=
  (summaries.zip docIds).map (fun p => Doc.mk p.1 [(idKey, p.2)])

/-- From the hypothetical-questions cell: one tagged document per generated
question, all questions of `docs[i]` tagged with `doc_ids[i]`. -/
def buildQuestionDocs (idKey : String) (questionLists : List (List String))
    (docIds : List String) : List Doc :=
  (questionLists.zip docIds).flatMap
    (fun p => p.1.map (fun s => Doc.mk s [(idKey, p.2)]))

/-- From every flow's final cell:
`retriever.docstore.mset(list(zip(doc_ids, docs)))` into the fresh (empty)
`InMemoryByteStore`, so the store contents are exactly these pairs. -/
def msetPairs (docIds : List String) (docs : List Doc) : List (String × Doc) :=
  docIds.zip docs

/-- The association field name used throughout the notebook:
`id_key = "doc_id"`, passed both to `MultiVectorRetriever(id_key=id_key)` and
to every metadata write. -/
def notebookIdKey : String := "doc_id"

/-! ### Concrete documents and stores used for witnesses -/

/-- A concrete generated identifier for primary document A. -/
def keyA : String := "A"

/-- A concrete generated identifier for primary document B. -/
def keyB : String := "B"

/-- Primary document A. -/
def pA : Doc := { pageContent := "primary A content", metadata := [] }

/-- Primary document B. -/
def pB : Doc := { pageContent := "primary B content", metadata := [] }

/-- A secondary chunk of A. -/
def a1 : Doc := { pageContent := "a chunk 1", metadata := [(notebookIdKey, keyA)] }

/-- Another secondary chunk of A. -/
def a2 : Doc := { pageContent := "a chunk 2", metadata := [(notebookIdKey, keyA)] }

/-- A secondary chunk of B. -/
def b1 : Doc := { pageContent := "b chunk 1", metadata := [(notebookIdKey, keyB)] }

/-- Another secondary chunk of B. -/
def b2 : Doc := { pageContent := "b chunk 2", metadata := [(notebookIdKey, keyB)] }

/-- A concrete store holding both primaries. -/
def stC : List (String × Doc) := [(keyA, pA), (keyB, pB)]

/-- A concrete store holding only primary B, so that key A is a store miss. -/
def stB : List (String × Doc) := [(keyB, pB)]

/-- A concrete ranked match list: both B chunks ahead of both A chunks. -/
def msC : List Doc := [b1, b2, a1, a2]

example : extractKeys notebookIdKey msC = [keyB, keyB, keyA, keyA] := by decide
example : dedupKeys [keyB, keyB, keyA, keyA] = [keyB, keyA] := by decide
example : retrieveFromMatches notebookIdKey stC msC = [pB, pA] := by decide
example : retrievedKeys notebookIdKey stC msC = [keyB, keyA] := by decide
example : firstIdx keyA (extractKeys notebookIdKey msC) = 2 := by decide

/-! ### Helper lemmas -/

theorem getMeta_setMeta_self (field v : String) :
    ∀ (m : List (String × String)), getMeta field (setMeta field v m) = some v := by
  intro m
  induction m with
  | nil => simp [setMeta, getMeta]
  | cons hd tl ih =>
    obtain ⟨f, w⟩ := hd
    by_cases h : f = field
    · simp [setMeta, getMeta, h]
    · simp [setMeta, getMeta, h, ih]

theorem mem_dedupKeys {a : String} :
    ∀ {l : List String}, a ∈ dedupKeys l ↔ a ∈ l := by
  intro l
  induction l with
  | nil => simp [dedupKeys]
  | cons k ks ih =>
    simp only [dedupKeys, List.mem_cons, List.mem_filter, decide_eq_true_eq]
    constructor
    · rintro (rfl | ⟨h, _⟩)
      · exact Or.inl rfl
      · exact Or.inr (ih.mp h)
    · rintro (rfl | h)
      · exact Or.inl rfl
      · by_cases hk : a = k
        · exact Or.inl hk
        · exact Or.inr ⟨ih.mpr h, hk⟩

theorem nodup_dedupKeys : ∀ (l : List String), (dedupKeys l).Nodup
  | [] => List.nodup_nil
  | k :: ks => by
    simp only [dedupKeys, List.nodup_cons]
    refine ⟨?_, (nodup_dedupKeys ks).filter _⟩
    intro hmem
    have := (List.mem_filter.mp hmem).2
    simp at this

theorem dedupKeys_sublist : ∀ (l : List String), List.Sublist (dedupKeys l) l
  | [] => List.Sublist.refl _
  | k :: ks => by
    simp only [dedupKeys]
    exact ((List.filter_sublist (dedupKeys ks)).trans (dedupKeys_sublist ks)).cons₂ k

theorem length_filterMap_eq {α β : Type} (f : α → Option β) :
    ∀ (l : List α),
      (l.filterMap f).length = (l.filter (fun a => (f a).isSome)).length := by
  intro l
  induction l with
  | nil => rfl
  | cons x t ih =>
    cases hx : f x <;>
      simp [List.filterMap_cons, hx, List.filter_cons, ih]

theorem get?_filterMap_eq {α β : Type} (f : α → Option β) :
    ∀ (l : List α) (i : Nat),
      (l.filterMap f).get? i
        = ((l.filter (fun a => (f a).isSome)).get? i).bind f := by
  intro l
  induction l with
  | nil => intro i; rfl
  | cons x t ih =>
    intro i
    cases hx : f x with
    | none => simpa [List.filterMap_cons, hx, List.filter_cons] using ih i
    | some v =>
      cases i with
      | zero => simp [List.filterMap_cons, hx, List.filter_cons]
      | succ n => simpa [List.filterMap_cons, hx, List.filter_cons] using ih n

theorem get?_firstIdx {a : String} :
    ∀ {l : List String}, a ∈ l → l.get? (firstIdx a l) = some a := by
  intro l
  induction l with
  | nil => intro h; simp at h
  | cons x t ih =>
    intro h
    by_cases hx : x = a
    · subst hx; simp [firstIdx]
    · rcases List.mem_cons.mp h with rfl | ht
      · exact absurd rfl hx
      · simp only [firstIdx, if_neg hx]
        simpa using ih ht

theorem firstIdx_inj {a b : String} {l : List String} (ha : a ∈ l) (hb : b ∈ l)
    (h : firstIdx a l = firstIdx b l) : a = b := by
  have h1 := get?_firstIdx ha
  have h2 := get?_firstIdx hb
  rw [h, h2] at h1
  exact (Option.some.injEq _ _ ▸ h1).symm

theorem firstIdx_filter_lt (p : String → Bool) {a b : String}
    (ha : p a = true) (hb : p b = true) :
    ∀ {l : List String}, firstIdx a l < firstIdx b l →
      firstIdx a (l.filter p) < firstIdx b (l.filter p) := by
  intro l
  induction l with
  | nil => intro h; exact absurd h (lt_irrefl 0)
  | cons c t ih =>
    intro h
    by_cases hca : c = a
    · subst hca
      have hcb : ¬ c = b := by
        intro hcb
        subst hcb
        simp [firstIdx] at h
      simp [List.filter_cons, ha, firstIdx, hcb]
    · by_cases hcb : c = b
      · subst hcb
        have hz : firstIdx c (c :: t) = 0 := by simp [firstIdx]
        rw [hz] at h
        exact absurd h (Nat.not_lt_zero _)
      · rw [firstIdx, if_neg hca, firstIdx, if_neg hcb,
          Nat.succ_lt_succ_iff] at h
        have hf := ih h
        cases hpc : p c with
        | false => simpa [List.filter_cons, hpc] using hf
        | true =>
          simp only [List.filter_cons, hpc, if_pos, firstIdx,
            if_neg hca, if_neg hcb]
          exact Nat.succ_lt_succ hf

theorem mem_retrievedKeys {K : String} (idKey : String)
    (st : List (String × Doc)) (ms : List Doc) :
    K ∈ retrievedKeys idKey st ms
      ↔ K ∈ extractKeys idKey ms ∧ (mget st K).isSome = true := by
  simp [retrievedKeys, List.mem_filter, mem_dedupKeys]

theorem nodup_retrievedKeys (idKey : String) (st : List (String × Doc))
    (ms : List Doc) : (retrievedKeys idKey st ms).Nodup :=
  (nodup_dedupKeys _).filter _

theorem filterMap_filter_isSome {α β : Type} (f : α → Option β) :
    ∀ (l : List α),
      (l.filter (fun a => (f a).isSome)).filterMap f = l.filterMap f := by
  intro l
  induction l with
  | nil => rfl
  | cons x t ih =>
    cases hx : f x <;>
      simp [List.filter_cons, List.filterMap_cons, hx, ih]

theorem retrieveFromMatches_eq_filterMap (idKey : String)
    (st : List (String × Doc)) (ms : List Doc) :
    retrieveFromMatches idKey st ms
      = (retrievedKeys idKey st ms).filterMap (mget st) :=
  (filterMap_filter_isSome (mget st) _).symm

theorem length_retrieveFromMatches (idKey : String)
    (st : List (String × Doc)) (ms : List Doc) :
    (retrieveFromMatches idKey st ms).length
      = (retrievedKeys idKey st ms).length :=
  length_filterMap_eq (mget st) _

theorem get?_retrieveFromMatches (idKey : String) (st : List (String × Doc))
    (ms : List Doc) (i : Nat) :
    (retrieveFromMatches idKey st ms).get? i
      = ((retrievedKeys idKey st ms).get? i).bind (mget st) :=
  get?_filterMap_eq (mget st) (dedupKeys (extractKeys idKey ms)) i

theorem firstIdx_dedupKeys_lt {a b : String} :
    ∀ {l : List String}, firstIdx a l < firstIdx b l →
      firstIdx a (dedupKeys l) < firstIdx b (dedupKeys l) := by
  intro l
  induction l with
  | nil => intro h; exact absurd h (lt_irrefl 0)
  | cons c t ih =>
    intro h
    by_cases hca : c = a
    · subst hca
      have hcb : ¬ c = b := by
        intro hcb
        subst hcb
        simp [firstIdx] at h
      simp [dedupKeys, firstIdx, hcb]
    · by_cases hcb : c = b
      · subst hcb
        have hz : firstIdx c (c :: t) = 0 := by simp [firstIdx]
        rw [hz] at h
        exact absurd h (Nat.not_lt_zero _)
      · rw [firstIdx, if_neg hca, firstIdx, if_neg hcb,
          Nat.succ_lt_succ_iff] at h
        have hf := firstIdx_filter_lt (fun j => decide (j ≠ c))
          (by simp [Ne.symm hca]) (by simp [Ne.symm hcb]) (ih h)
        simp only [dedupKeys, firstIdx, if_neg hca, if_neg hcb]
        exact Nat.succ_lt_succ hf

theorem firstIdx_retrievedKeys_iff (idKey : String) (st : List (String × Doc))
    (ms : List Doc) {K1 K2 : String}
    (h1 : K1 ∈ extractKeys idKey ms) (hh1 : (mget st K1).isSome = true)
    (h2 : K2 ∈ extractKeys idKey ms) (hh2 : (mget st K2).isSome = true)
    (hne : K1 ≠ K2) :
    firstIdx K1 (retrievedKeys idKey st ms)
        < firstIdx K2 (retrievedKeys idKey st ms)
      ↔ firstIdx K1 (extractKeys idKey ms)
        < firstIdx K2 (extractKeys idKey ms) := by
  have fwd : ∀ (a b : String),
      (mget st a).isSome = true → (mget st b).isSome = true →
      firstIdx a (extractKeys idKey ms) < firstIdx b (extractKeys idKey ms) →
      firstIdx a (retrievedKeys idKey st ms)
        < firstIdx b (retrievedKeys idKey st ms) := by
    intro a b hha hhb hlt
    exact firstIdx_filter_lt _ hha hhb (firstIdx_dedupKeys_lt hlt)
  constructor
  · intro hR
    rcases Nat.lt_trichotomy (firstIdx K1 (extractKeys idKey ms))
      (firstIdx K2 (extractKeys idKey ms)) with h | h | h
    · exact h
    · exact absurd (firstIdx_inj h1 h2 h) hne
    · exact absurd hR (Nat.lt_asymm (fwd K2 K1 hh2 hh1 h))
  · exact fwd K1 K2 hh1 hh2

theorem length_filter_flip {l : List String} (p q : String → Bool) {K : String}
    (hnd : l.Nodup) (hK : K ∈ l) (hpK : p K = false) (hqK : q K = true)
    (hagree : ∀ x, x ≠ K → q x = p x) :
    (l.filter q).length = (l.filter p).length + 1 := by
  induction l with
  | nil => simp at hK
  | cons c t ih =>
    have hnd' := (List.nodup_cons.mp hnd).2
    rcases List.mem_cons.mp hK with rfl | hKt
    · have hKt : K ∉ t := (List.nodup_cons.mp hnd).1
      have heq : t.filter q = t.filter p := by
        apply List.filter_congr
        intro x hx
        exact hagree x (fun hxK => hKt (hxK ▸ hx))
      simp [List.filter_cons, hqK, hpK, heq]
    · by_cases hcK : c = K
      · subst hcK
        exact absurd hKt (List.nodup_cons.mp hnd).1
      · have hqc : q c = p c := hagree c hcK
        cases hpc : p c with
        | false =>
          simpa [List.filter_cons, hpc, hqc.trans hpc] using ih hnd' hKt
        | true =>
          simpa [List.filter_cons, hpc, hqc.trans hpc] using ih hnd' hKt

theorem mem_extractKeys {K : String} (idKey : String) (ms : List Doc) :
    K ∈ extractKeys idKey ms
      ↔ ∃ d, d ∈ ms ∧ getMeta idKey d.metadata = some K := by
  simp [extractKeys, List.mem_filterMap]

/-! ### Claims -/

/-- C1 as literally stated is false: the claim places the deduplicated
primary document at "the rank position of the first (highest-ranked) of
those matches".  With the ranked matches `[b1, b2, a1, a2]` (two distinct B
chunks ahead of two distinct A chunks, both stores complete), the two distinct
A chunks share key A, the first of them sits at rank 2 of the match list, yet
primary A appears at output position 1 — position 2 of the output does not
even exist. -/
theorem c1_counterexample :
    a1 ∈ msC ∧ a2 ∈ msC ∧ a1 ≠ a2 ∧
    getMeta notebookIdKey a1.metadata = some keyA ∧
    getMeta notebookIdKey a2.metadata = some keyA ∧
    mget stC keyA = some pA ∧
    msC.get? 2 = some a1 ∧
    firstIdx keyA (extractKeys notebookIdKey msC) = 2 ∧
    ¬ (retrieveFromMatches notebookIdKey stC msC).get? 2 = some pA ∧
    (retrieveFromMatches notebookIdKey stC msC).get? 1 = some pA := by
  decide

/-- C1 (amended): if two distinct Secondary Records with the same association
key `K` both appear among the ranked matches and the store holds `p` under
`K`, then `K` survives deduplication exactly once, `p` appears in the output
at the position of `K` in the deduplicated store-filtered key sequence (the
position induced by `K`'s first match), and that position is ordered against
every other returned key exactly by first-match rank. -/
theorem c1_dedup_exactly_once (idKey : String) (st : List (String × Doc))
    (ms : List Doc) (d1 d2 : Doc) (K : String) (p : Doc)
    (h1 : d1 ∈ ms) (h2 : d2 ∈ ms) (hne : d1 ≠ d2)
    (hk1 : getMeta idKey d1.metadata = some K)
    (hk2 : getMeta idKey d2.metadata = some K)
    (hst : mget st K = some p) :
    (retrievedKeys idKey st ms).count K = 1 ∧
    (retrieveFromMatches idKey st ms).get?
        (firstIdx K (retrievedKeys idKey st ms)) = some p ∧
    (∀ K2, K2 ∈ retrievedKeys idKey st ms → K2 ≠ K →
      (firstIdx K2 (retrievedKeys idKey st ms)
          < firstIdx K (retrievedKeys idKey st ms)
        ↔ firstIdx K2 (extractKeys idKey ms)
          < firstIdx K (extractKeys idKey ms))) := by
  have hKE : K ∈ extractKeys idKey ms :=
    (mem_extractKeys idKey ms).mpr ⟨d1, h1, hk1⟩
  have hKs : (mget st K).isSome = true := by simp [hst]
  have hKR : K ∈ retrievedKeys idKey st ms :=
    (mem_retrievedKeys idKey st ms).mpr ⟨hKE, hKs⟩
  refine ⟨?_, ?_, ?_⟩
  · exact List.count_eq_one_of_mem (nodup_retrievedKeys idKey st ms) hKR
  · rw [get?_retrieveFromMatches, get?_firstIdx hKR]
    simpa using hst
  · intro K2 hK2 hne2
    obtain ⟨hK2E, hK2s⟩ := (mem_retrievedKeys idKey st ms).mp hK2
    exact firstIdx_retrievedKeys_iff idKey st ms hK2E hK2s hKE hKs hne2

/-- Witness for C1 (amended): with both A chunks ranked below both B chunks,
key A is returned exactly once, and primary A sits at position 1, the position
of key A in the deduplicated store-filtered key order. -/
theorem c1_witness :
    a1 ∈ msC ∧ a2 ∈ msC ∧ a1 ≠ a2 ∧
    firstIdx keyA (retrievedKeys notebookIdKey stC msC) = 1 ∧
    ((retrievedKeys notebookIdKey stC msC).count keyA = 1 ∧
      (retrieveFromMatches notebookIdKey stC msC).get?
          (firstIdx keyA (retrievedKeys notebookIdKey stC msC)) = some pA ∧
      (∀ K2, K2 ∈ retrievedKeys notebookIdKey stC msC → K2 ≠ keyA →
        (firstIdx K2 (retrievedKeys notebookIdKey stC msC)
            < firstIdx keyA (retrievedKeys notebookIdKey stC msC)
          ↔ firstIdx K2 (extractKeys notebookIdKey msC)
            < firstIdx keyA (extractKeys notebookIdKey msC)))) :=
  ⟨by decide, by decide, by decide, by decide,
    c1_dedup_exactly_once notebookIdKey stC msC a1 a2 keyA pA
      (by decide) (by decide) (by decide) (by decide) (by decide) (by decide)⟩

/-- C2: a matched association key with no corresponding primary document in
the key-value store does not fail retrieval: the key is silently omitted from
the returned keys, and had the store held a document under that key the output
would have been exactly one result longer. -/
theorem c2_store_miss_degrades (idKey : String) (st : List (String × Doc))
    (ms : List Doc) (K : String) (p : Doc)
    (hK : K ∈ extractKeys idKey ms) (hmiss : mget st K = none) :
    ¬ K ∈ retrievedKeys idKey st ms ∧
    (retrieveFromMatches idKey ((K, p) :: st) ms).length
      = (retrieveFromMatches idKey st ms).length + 1 := by
  constructor
  · intro hmem
    have := ((mem_retrievedKeys idKey st ms).mp hmem).2
    rw [hmiss] at this
    simp at this
  · rw [length_retrieveFromMatches, length_retrieveFromMatches]
    refine length_filter_flip _ _ (nodup_dedupKeys _)
      (mem_dedupKeys.mpr hK) ?_ ?_ ?_
    · rw [hmiss]; rfl
    · simp [mget]
    · intro x hx
      have hKx : ¬ K = x := fun h => hx h.symm
      simp [mget, hKx]

/-- Witness for C2: with primary A absent from store `stB`, key A is omitted;
adding A to the store lengthens the output from 1 to 2. -/
theorem c2_witness :
    keyA ∈ extractKeys notebookIdKey msC ∧
    mget stB keyA = none ∧
    (¬ keyA ∈ retrievedKeys notebookIdKey stB msC ∧
      (retrieveFromMatches notebookIdKey ((keyA, pA) :: stB) msC).length
        = (retrieveFromMatches notebookIdKey stB msC).length + 1) ∧
    (retrieveFromMatches notebookIdKey stB msC).length = 1 :=
  ⟨by decide, by decide,
    c2_store_miss_degrades notebookIdKey stB msC keyA pA
      (by decide) (by decide),
    by decide⟩

/-- C3: the output order of retrieval equals the first-seen order of
association keys in the ranked match sequence: for any two distinct returned
keys, their relative order among the returned keys matches the order of their
first occurrences in the extracted key sequence, and the document at a key's
position is exactly the store's document for that key. -/
theorem c3_order_preservation (idKey : String) (st : List (String × Doc))
    (ms : List Doc) (K1 K2 : String)
    (h1 : K1 ∈ extractKeys idKey ms) (hh1 : (mget st K1).isSome = true)
    (h2 : K2 ∈ extractKeys idKey ms) (hh2 : (mget st K2).isSome = true)
    (hne : K1 ≠ K2) :
    (firstIdx K1 (retrievedKeys idKey st ms)
        < firstIdx K2 (retrievedKeys idKey st ms)
      ↔ firstIdx K1 (extractKeys idKey ms)
        < firstIdx K2 (extractKeys idKey ms)) ∧
    (retrieveFromMatches idKey st ms).get?
        (firstIdx K1 (retrievedKeys idKey st ms)) = mget st K1 := by
  constructor
  · exact firstIdx_retrievedKeys_iff idKey st ms h1 hh1 h2 hh2 hne
  · have hK1R : K1 ∈ retrievedKeys idKey st ms :=
      (mem_retrievedKeys idKey st ms).mpr ⟨h1, hh1⟩
    rw [get?_retrieveFromMatches, get?_firstIdx hK1R]
    rfl

/-- Witness for C3: key B's first match outranks key A's first match, and
accordingly primary B precedes primary A in the output. -/
theorem c3_witness :
    keyB ∈ extractKeys notebookIdKey msC ∧
    keyA ∈ extractKeys notebookIdKey msC ∧
    ((firstIdx keyB (retrievedKeys notebookIdKey stC msC)
        < firstIdx keyA (retrievedKeys notebookIdKey stC msC)
      ↔ firstIdx keyB (extractKeys notebookIdKey msC)
        < firstIdx keyA (extractKeys notebookIdKey msC)) ∧
      (retrieveFromMatches notebookIdKey stC msC).get?
          (firstIdx keyB (retrievedKeys notebookIdKey stC msC))
        = mget stC keyB) :=
  ⟨by decide, by decide,
    c3_order_preservation notebookIdKey stC msC keyB keyA
      (by decide) (by decide) (by decide) (by decide) (by decide)⟩

/-- C4: with at most `k` ranked matches, retrieval returns at most `k`
documents; the output length equals the number of distinct association keys
with stored primary documents among the matches (so `d < k` distinct stored
keys yield exactly `d` results). -/
theorem c4_length_bound (idKey : String) (st : List (String × Doc))
    (ms : List Doc) (k : Nat) (hk : ms.length ≤ k) :
    (retrieveFromMatches idKey st ms).length ≤ k ∧
    (retrieveFromMatches idKey st ms).length
      = (retrievedKeys idKey st ms).length ∧
    (retrievedKeys idKey st ms).Nodup ∧
    (∀ K, K ∈ retrievedKeys idKey st ms
      ↔ K ∈ extractKeys idKey ms ∧ (mget st K).isSome = true) := by
  refine ⟨?_, length_retrieveFromMatches idKey st ms,
    nodup_retrievedKeys idKey st ms,
    fun K => mem_retrievedKeys idKey st ms⟩
  calc (retrieveFromMatches idKey st ms).length
      ≤ (dedupKeys (extractKeys idKey ms)).length :=
        List.length_filterMap_le _ _
    _ ≤ (extractKeys idKey ms).length :=
        (dedupKeys_sublist _).length_le
    _ ≤ ms.length := List.length_filterMap_le _ _
    _ ≤ k := hk

/-- Witness for C4: the spec's scenario — `k = 4` requested, four matches
spanning two distinct stored keys, output length exactly 2. -/
theorem c4_witness :
    msC.length ≤ 4 ∧
    ((retrieveFromMatches notebookIdKey stC msC).length ≤ 4 ∧
      (retrieveFromMatches notebookIdKey stC msC).length
        = (retrievedKeys notebookIdKey stC msC).length ∧
      (retrievedKeys notebookIdKey stC msC).Nodup ∧
      (∀ K, K ∈ retrievedKeys notebookIdKey stC msC
        ↔ K ∈ extractKeys notebookIdKey msC ∧ (mget stC K).isSome = true)) ∧
    (retrieveFromMatches notebookIdKey stC msC).length = 2 :=
  ⟨by decide,
    c4_length_bound notebookIdKey stC msC 4 (by decide),
    by decide⟩

/-- C5: a vector-index match whose metadata lacks the configured association
key field is skipped — removing such a match from the ranked match list does
not change the result of retrieval at all, and in particular the request does
not fail (retrieval is total). -/
theorem c5_missing_key_field_skipped (idKey : String)
    (st : List (String × Doc)) (ms1 ms2 : List Doc) (d : Doc)
    (h : getMeta idKey d.metadata = none) :
    retrieveFromMatches idKey st (ms1 ++ d :: ms2)
      = retrieveFromMatches idKey st (ms1 ++ ms2) := by
  simp [retrieveFromMatches, extractKeys, List.filterMap_append,
    List.filterMap_cons, h]

/-- Witness for C5: a concrete match without the `doc_id` field, sitting
between two keyed matches, is silently excluded. -/
theorem c5_witness :
    getMeta notebookIdKey (Doc.mk ("stray text") []).metadata = none ∧
    retrieveFromMatches notebookIdKey stC
        ([b1] ++ Doc.mk ("stray text") [] :: [a1])
      = retrieveFromMatches notebookIdKey stC ([b1] ++ [a1]) :=
  ⟨by decide,
    c5_missing_key_field_skipped notebookIdKey stC [b1] [a1]
      (Doc.mk ("stray text") []) (by decide)⟩

/-- C6: if the top-ranked vector match carries association key `K` and the
key-value store holds primary document `p` under `K`, then retrieval returns
`p` as its first result. -/
theorem c6_top_match_returned_first (idKey : String)
    (st : List (String × Doc)) (d : Doc) (rest : List Doc) (K : String)
    (p : Doc) (hkey : getMeta idKey d.metadata = some K)
    (hstore : mget st K = some p) :
    (retrieveFromMatches idKey st (d :: rest)).head? = some p := by
  simp [retrieveFromMatches, extractKeys, List.filterMap_cons, hkey,
    dedupKeys, hstore]

/-- Witness for C6: with chunk `a1` of primary A as the top match, primary A
is the first retrieved document. -/
theorem c6_witness :
    getMeta notebookIdKey a1.metadata = some keyA ∧
    mget stC keyA = some pA ∧
    (retrieveFromMatches notebookIdKey stC (a1 :: [b1])).head? = some pA :=
  ⟨by decide, by decide,
    c6_top_match_returned_first notebookIdKey stC a1 [b1] keyA pA
      (by decide) (by decide)⟩

/-- C7: `retrieve` is read-only in either search mode: it returns the backing
state (vector index and key-value store) unchanged, and its result list is a
pure function of the two stores and the configuration, with no further
internal state. -/
theorem c7_retrieve_read_only (idKey : String)
    (search : SearchType → String → Nat → List Doc → List Doc)
    (mode : SearchType) (query : String) (k : Nat) (s : RetrieverState) :
    (retrieve idKey search mode query k s).2 = s ∧
    (retrieve idKey search mode query k s).1
      = retrieveFromMatches idKey s.docstore
          (search mode query k s.vectorstore) :=
  ⟨rfl, rfl⟩

theorem exists_zip_pair {α β : Type} :
    ∀ (l1 : List α) (l2 : List β), l1.length = l2.length →
      ∀ b ∈ l2, ∃ a, a ∈ l1 ∧ (a, b) ∈ l1.zip l2 := by
  intro l1
  induction l1 with
  | nil =>
    intro l2 h b hb
    cases l2 with
    | nil => simp at hb
    | cons y u => simp at h
  | cons x t ih =>
    intro l2 h b hb
    cases l2 with
    | nil => simp at hb
    | cons y u =>
      rcases List.mem_cons.mp hb with rfl | hbu
      · exact ⟨x, List.mem_cons_self x t, by simp⟩
      · obtain ⟨a, ha, hmem⟩ := ih u (by simpa using h) b hbu
        exact ⟨a, List.mem_cons_of_mem x ha, List.mem_cons_of_mem (x, y) hmem⟩

theorem extractKeys_map_mk (idKey : String) :
    ∀ (L : List (String × String)),
      extractKeys idKey (L.map (fun p => Doc.mk p.1 [(idKey, p.2)]))
        = L.map Prod.snd := by
  intro L
  induction L with
  | nil => rfl
  | cons p t ih =>
    simp only [List.map_cons, extractKeys, List.filterMap_cons] at ih ⊢
    simp [getMeta, ih]

theorem extractKeys_buildSummaryDocs (idKey : String)
    (summaries docIds : List String) (h : docIds.length ≤ summaries.length) :
    extractKeys idKey (buildSummaryDocs idKey summaries docIds) = docIds := by
  have := extractKeys_map_mk idKey (summaries.zip docIds)
  simp only [buildSummaryDocs]
  rw [this, List.map_snd_zip _ _ h]

/-- C8: in each of the three insertion flows, every secondary document
derived from a primary document paired with its generated identifier carries
that identifier under the configured association field, and is among the
documents handed to `vectorstore.add_documents`; since the key tagged on all
of one document's secondaries is the one paired identifier, they all carry
the same key. -/
theorem c8_secondary_docs_tagged (idKey : String) (split : Doc → List Doc)
    (docs : List Doc) (summaries : List String)
    (qlists : List (List String)) (docIds : List String) :
    (∀ p ∈ docs.zip docIds, ∀ s ∈ split p.1,
      getMeta idKey (tagDoc idKey p.2 s).metadata = some p.2 ∧
      tagDoc idKey p.2 s ∈ buildSubDocs idKey split docs docIds) ∧
    (∀ p ∈ summaries.zip docIds,
      getMeta idKey (Doc.mk p.1 [(idKey, p.2)]).metadata = some p.2 ∧
      Doc.mk p.1 [(idKey, p.2)] ∈ buildSummaryDocs idKey summaries docIds) ∧
    (∀ p ∈ qlists.zip docIds, ∀ s ∈ p.1,
      getMeta idKey (Doc.mk s [(idKey, p.2)]).metadata = some p.2 ∧
      Doc.mk s [(idKey, p.2)] ∈ buildQuestionDocs idKey qlists docIds) := by
  refine ⟨?_, ?_, ?_⟩
  · intro p hp s hs
    refine ⟨getMeta_setMeta_self idKey p.2 s.metadata, ?_⟩
    simp only [buildSubDocs, List.mem_flatMap]
    exact ⟨p, hp, List.mem_map_of_mem _ hs⟩
  · intro p hp
    refine ⟨by simp [getMeta], ?_⟩
    simp only [buildSummaryDocs]
    exact List.mem_map_of_mem _ hp
  · intro p hp s hs
    refine ⟨by simp [getMeta], ?_⟩
    simp only [buildQuestionDocs, List.mem_flatMap]
    exact ⟨p, hp, List.mem_map_of_mem _ hs⟩

/-- A concrete child splitter for witnesses. -/
def splitC : Doc → List Doc := fun d => [d]

/-- Concrete summaries for witnesses. -/
def sumStrings : List String := ["summary of A", "summary of B"]

/-- Concrete hypothetical-question lists for witnesses. -/
def qListsC : List (List String) :=
  [["question 1", "question 2"], ["question 3"]]

/-- Witness for C8: the chunk of primary A is tagged with key A and inserted
in the smaller-chunks flow. -/
theorem c8_witness :
    getMeta notebookIdKey (tagDoc notebookIdKey keyA pA).metadata
      = some keyA ∧
    tagDoc notebookIdKey keyA pA
      ∈ buildSubDocs notebookIdKey splitC [pA, pB] [keyA, keyB] :=
  (c8_secondary_docs_tagged notebookIdKey splitC [pA, pB] sumStrings qListsC
      [keyA, keyB]).1 (pA, keyA) (by decide) pA (by decide)

/-- C9: after each notebook indexing step, no association key dangles — the
set of `id_key` values on the inserted secondary documents coincides with the
set of keys written by `mset(zip(doc_ids, docs))`, namely `doc_ids`.  The
smaller-chunks and question flows need each primary document to produce at
least one secondary representation; the summary flow produces exactly one per
document, so its extracted keys are exactly `doc_ids`, in order. -/
theorem c9_no_dangling_keys (idKey : String) (split : Doc → List Doc)
    (docs : List Doc) (summaries : List String)
    (qlists : List (List String)) (docIds : List String)
    (hlen : docs.length = docIds.length)
    (hs : summaries.length = docIds.length)
    (hq : qlists.length = docIds.length)
    (hsplit : ∀ d ∈ docs, ¬ split d = [])
    (hqne : ∀ l ∈ qlists, ¬ l = []) :
    (msetPairs docIds docs).map Prod.fst = docIds ∧
    (∀ K, K ∈ extractKeys idKey (buildSubDocs idKey split docs docIds)
      ↔ K ∈ docIds) ∧
    extractKeys idKey (buildSummaryDocs idKey summaries docIds) = docIds ∧
    (∀ K, K ∈ extractKeys idKey (buildQuestionDocs idKey qlists docIds)
      ↔ K ∈ docIds) := by
  refine ⟨List.map_fst_zip _ _ (le_of_eq hlen.symm), ?_,
    extractKeys_buildSummaryDocs idKey summaries docIds (le_of_eq hs.symm),
    ?_⟩
  · intro K
    constructor
    · intro hK
      obtain ⟨d, hd, hmeta⟩ := (mem_extractKeys idKey _).mp hK
      simp only [buildSubDocs, List.mem_flatMap, List.mem_map] at hd
      obtain ⟨p, hp, s, hs', rfl⟩ := hd
      rw [show (tagDoc idKey p.2 s).metadata = setMeta idKey p.2 s.metadata
          from rfl, getMeta_setMeta_self] at hmeta
      exact (Option.some.injEq _ _ ▸ hmeta) ▸ (List.of_mem_zip hp).2
    · intro hK
      obtain ⟨a, ha, hpair⟩ := exists_zip_pair docs docIds hlen K hK
      obtain ⟨s, hs'⟩ := List.exists_mem_of_ne_nil _ (hsplit a ha)
      refine (mem_extractKeys idKey _).mpr ⟨tagDoc idKey K s, ?_, ?_⟩
      · simp only [buildSubDocs, List.mem_flatMap]
        exact ⟨(a, K), hpair, List.mem_map_of_mem _ hs'⟩
      · exact getMeta_setMeta_self idKey K s.metadata
  · intro K
    constructor
    · intro hK
      obtain ⟨d, hd, hmeta⟩ := (mem_extractKeys idKey _).mp hK
      simp only [buildQuestionDocs, List.mem_flatMap, List.mem_map] at hd
      obtain ⟨p, hp, s, hs', rfl⟩ := hd
      simp only [getMeta, if_pos rfl] at hmeta
      exact (Option.some.injEq _ _ ▸ hmeta) ▸ (List.of_mem_zip hp).2
    · intro hK
      obtain ⟨l, hl, hpair⟩ := exists_zip_pair qlists docIds hq K hK
      obtain ⟨s, hs'⟩ := List.exists_mem_of_ne_nil _ (hqne l hl)
      refine (mem_extractKeys idKey _).mpr ⟨Doc.mk s [(idKey, K)], ?_, ?_⟩
      · simp only [buildQuestionDocs, List.mem_flatMap]
        exact ⟨(l, K), hpair, List.mem_map_of_mem _ hs'⟩
      · simp [getMeta]

/-- Witness for C9: two primaries, two generated keys, all three flows
populated; the attached keys are exactly the keys written to the store. -/
theorem c9_witness :
    (msetPairs [keyA, keyB] [pA, pB]).map Prod.fst = [keyA, keyB] ∧
    (∀ K, K ∈ extractKeys notebookIdKey
        (buildSubDocs notebookIdKey splitC [pA, pB] [keyA, keyB])
      ↔ K ∈ [keyA, keyB]) ∧
    extractKeys notebookIdKey
        (buildSummaryDocs notebookIdKey sumStrings [keyA, keyB])
      = [keyA, keyB] ∧
    (∀ K, K ∈ extractKeys notebookIdKey
        (buildQuestionDocs notebookIdKey qListsC [keyA, keyB])
      ↔ K ∈ [keyA, keyB]) :=
  c9_no_dangling_keys notebookIdKey splitC [pA, pB] sumStrings qListsC
    [keyA, keyB] (by decide) (by decide) (by decide) (by decide) (by decide)

/-- C10: the association field name configured on the retriever and the
field name written by every insertion flow are the one variable
`id_key = "doc_id"`: consequently the field the retriever reads is set on
every inserted secondary document, and in the summary flow reading it back
recovers exactly the generated identifiers. -/
theorem c10_same_field_read_and_written (split : Doc → List Doc)
    (docs : List Doc) (summaries : List String)
    (qlists : List (List String)) (docIds : List String)
    (hs : summaries.length = docIds.length) :
    notebookIdKey = "doc_id" ∧
    extractKeys notebookIdKey
        (buildSummaryDocs notebookIdKey summaries docIds) = docIds ∧
    (∀ d ∈ buildSubDocs notebookIdKey split docs docIds,
      (getMeta notebookIdKey d.metadata).isSome = true) ∧
    (∀ d ∈ buildQuestionDocs notebookIdKey qlists docIds,
      (getMeta notebookIdKey d.metadata).isSome = true) := by
  refine ⟨rfl,
    extractKeys_buildSummaryDocs notebookIdKey summaries docIds
      (le_of_eq hs.symm), ?_, ?_⟩
  · intro d hd
    simp only [buildSubDocs, List.mem_flatMap, List.mem_map] at hd
    obtain ⟨p, hp, s, hs', rfl⟩ := hd
    rw [show (tagDoc notebookIdKey p.2 s).metadata
        = setMeta notebookIdKey p.2 s.metadata from rfl,
      getMeta_setMeta_self]
    rfl
  · intro d hd
    simp only [buildQuestionDocs, List.mem_flatMap, List.mem_map] at hd
    obtain ⟨p, hp, s, hs', rfl⟩ := hd
    simp [getMeta]

/-- Witness for C10: with the notebook's concrete wiring, the summary flow's
extracted keys are the generated identifiers, and every inserted secondary
document of the other two flows carries the `doc_id` field. -/
theorem c10_witness :
    notebookIdKey = "doc_id" ∧
    extractKeys notebookIdKey
        (buildSummaryDocs notebookIdKey sumStrings [keyA, keyB])
      = [keyA, keyB] ∧
    (∀ d ∈ buildSubDocs notebookIdKey splitC [pA, pB] [keyA, keyB],
      (getMeta notebookIdKey d.metadata).isSome = true) ∧
    (∀ d ∈ buildQuestionDocs notebookIdKey qListsC [keyA, keyB],
      (getMeta notebookIdKey d.metadata).isSome = true) :=
  c10_same_field_read_and_written splitC [pA, pB] sumStrings qListsC
    [keyA, keyB] (by decide)

end MultiVector
